import Mathlib

/-! Verification of the jar2native packaging tool (src/jar2native.py):
module dependency resolution with its fallback analysis chain, merging,
toolchain detection, input validation, and the lifecycle of run-scoped
scratch directories, shallowly embedded in Lean. -/

deriving instance DecidableEq for Except

namespace Jar2Native

/-! ## Python string primitives, modelled on lists of characters.

All text manipulation of the source is embedded through structurally
recursive functions on `List Char`, so that every concrete instance
evaluates inside the kernel. -/

/-- Splits a character list at every occurrence of the separator, as the
Python expression s.split(sep) does for a one-character separator: the
empty input yields one empty piece. -/
def splitChar (sep : Char) : List Char → List (List Char)
  | [] => [[]]
  | c :: cs =>
    if c = sep then [] :: splitChar sep cs
    else
      match splitChar sep cs with
      | [] => [[c]]
      | p :: ps => (c :: p) :: ps

/-- Joins character lists with a separator, as the Python sep.join. -/
def joinChar (sep : List Char) : List (List Char) → List Char
  | [] => []
  | [x] => x
  | x :: y :: ys => x ++ sep ++ joinChar sep (y :: ys)

/-- Python s.split(sep) for a one-character separator, on strings. -/
def pySplit (sep : Char) (s : String) : List String :=
  (splitChar sep s.data).map String.mk

/-- Python sep.join(l), on strings. -/
def pyJoin (sep : String) (l : List String) : String :=
  ⟨joinChar sep.data (l.map String.data)⟩

/-- Python s.strip(): removes leading and trailing whitespace. -/
def pyStrip (s : String) : String :=
  ⟨((s.data.dropWhile Char.isWhitespace).reverse.dropWhile Char.isWhitespace).reverse⟩

/-- Python s.lower() for the ASCII paths handled by the tool. -/
def pyLower (s : String) : String := ⟨s.data.map Char.toLower⟩

/-- Python s.endswith(suf). -/
def pyEndsWith (suf s : String) : Bool := suf.data.isSuffixOf s.data

/-- Python s.startswith(pre). -/
def pyStartsWith (pre s : String) : Bool := pre.data.isPrefixOf s.data

/-- Substring search over a character list. -/
def hasSub (key : String) : List Char → Bool
  | [] => key.data.isPrefixOf []
  | c :: cs => key.data.isPrefixOf (c :: cs) || hasSub key cs

/-- Python containment test key in s on strings. -/
def pyIn (key s : String) : Bool := hasSub key s.data

/-- Final component of a path string (the pathlib name of a resolved
path, which carries no trailing separator). -/
def lastComp (p : String) : String := (pySplit '/' p).getLastD ("")

/-- Pathlib suffix of a file name: the final extension including its dot,
or empty when the name has no dot, ends with a dot, or has its only dot
in leading position. -/
def extSuffix (name : String) : String :=
  let parts := pySplit '.' name
  if parts.length ≤ 1 then ("")
  else
    let lastPart := parts.getLastD ("")
    if lastPart = "" then ("")
    else if parts = [(""), lastPart] then ("")
    else ⟨'.' :: lastPart.data⟩

/-- Pathlib suffix of a whole path: the suffix of its final component. -/
def pySuffix (p : String) : String := extSuffix (lastComp p)

/-- Lexicographic code-point comparison of character lists, the order the
Python sorted builtin applies to strings. -/
def charListLe : List Char → List Char → Bool
  | [], _ => true
  | _ :: _, [] => false
  | a :: as, b :: bs =>
    if a < b then true else if b < a then false else charListLe as bs

/-- String comparison used for canonical serialization of module sets. -/
def StrLe (a b : String) : Prop := charListLe a.data b.data = true

instance : DecidableRel StrLe := fun a b =>
  inferInstanceAs (Decidable (charListLe a.data b.data = true))

/-- Python sorted on a list of strings. -/
def pySorted (l : List String) : List String := List.insertionSort StrLe l

/-! ## Embedding of src/jar2native.py.

External processes and the filesystem are modelled by a per-run
environment fixing the outcome of every collaborator call; each embedded
function also reports the observable events it performs (scratch
directory acquisition and release, external tool invocations), so that
lifecycle and zero-call claims are statable. -/

/-- Outcome of one jdeps invocation as the subprocess layer reports it:
captured stdout, a non-zero exit, or any other raised exception such as
a missing binary. -/
inductive CallRes where
  | ok (out : String)
  | processFailure
  | otherFailure
deriving DecidableEq

/-- Outcome of the JRE copytree call in PackageBuilder.prepare. -/
inductive CopyRes where
  | ok
  | staleThenOk
  | staleThenFailure
  | permissionFailure
deriving DecidableEq

/-- Errors a packaging run can surface. -/
inductive PkgErr where
  | inputNotFound
  | unsupportedInputType
  | missingEntryPoint
  | jdepsProcessFailure
  | jdepsOtherFailure
  | jlinkFailure
  | stagingCopyFailure
  | stagingPermission
  | bundleFailure
deriving DecidableEq

/-- Run-scoped ephemeral directories. -/
inductive Res where
  | workDir
  | warScratch
  | mfScratch
deriving DecidableEq

/-- Observable events of one packaging run. -/
inductive Ev where
  | acq (r : Res)
  | rel (r : Res)
  | jdepsPrecise (targets : List String)
  | jdepsListing (targets : List String)
  | listModulesCall
  | jlinkCall
  | copyCall
  | bundleCall
deriving DecidableEq

/-- Environment of one run: the behaviour of the filesystem and of every
external collaborator, fixed for the run. -/
structure SysEnv where
  inputFound : Bool
  manifest : Option String
  scratchDir : String
  warHasClasses : Bool
  warLibEntries : List String
  listModulesOut : String
  precise : CallRes
  listing : CallRes
  jlinkOk : Bool
  copy : CopyRes
  bundleOk : Bool
deriving DecidableEq

/-- Environment of JDK detection: stdout of the version probe (none when
the probe raises) and the shutil.which result for java. -/
structure DetectEnv where
  probe : Option String
  whichJava : Option String
deriving DecidableEq

/-- Failure of JDKManager construction. -/
inductive ToolErr where
  | notFound
deriving DecidableEq

/-- Models str(Path(p).parent.parent) on a POSIX path, as source line 32
derives the JDK root from the java binary location. -/
def pathParentParent (p : String) : String :=
  let comps := (pySplit '/' p).filter (· ≠ (""))
  let kept := comps.dropLast.dropLast
  if pyStartsWith ("/") p then ⟨'/' :: joinChar ['/'] (kept.map String.data)⟩
  else if kept = [] then (".") else pyJoin ("/") kept

/-- JDKManager._detect_jdk (source lines 24 to 37): probes java -version,
rejects a legacy version string, then derives the root from the resolved
binary location; every failure inside the try block is caught and
surfaces as the empty string. -/
def detect_jdk (env : DetectEnv) : String :=
  match env.probe with
  | none => ("")
  | some out =>
    if pyIn ("version \"1.") out then ("")
    else
      match env.whichJava with
      | some p => if p ≠ ("") then pathParentParent p else ("")
      | none => ("")

/-- JDKManager.__init__ (source lines 19 to 22): a truthy custom path is
taken verbatim without any probe, otherwise detection runs; a falsy
resulting directory raises. -/
def jdk_init (customPath : Option String) (env : DetectEnv) :
    Except ToolErr String :=
  let dir :=
    match customPath with
    | some s => if s ≠ ("") then s else detect_jdk env
    | none => detect_jdk env
  if dir = "" then .error .notFound else .ok dir

/-- Module names of JDKManager.list_all_modules (source lines 43 to 47):
nonblank lines of the listing output, text from the first @ on dropped,
deduplicated and sorted. -/
def listAllModulesList (out : String) : List String :=
  pySorted ((((pySplit '\n' out).filter (fun l => pyStrip l ≠ (""))).map
    (fun l => (pySplit '@' l).headD (""))).dedup)

/-- JDKManager.list_all_modules, the serialized ModuleSet string. -/
def list_all_modules (out : String) : String :=
  pyJoin (",") (listAllModulesList out)

/-- ModuleAnalyzer.DEFAULT_MODULES (source line 53), verbatim. -/
def DEFAULT_MODULES : String := "java.instrument,java.base,java.logging"

/-- Bracketed module marker of one jdeps --list-deps line: the text
between the first opening and the first closing bracket, as the Python
slice taken at the two index positions; when the closing bracket comes
first the slice is empty. -/
def bracketModule (line : String) : Option String :=
  if ('[' ∈ line.data) ∧ (']' ∈ line.data) then
    some ⟨(line.data.drop (line.data.indexOf '[' + 1)).take
      (line.data.indexOf ']' - (line.data.indexOf '[' + 1))⟩
  else none

/-- Module list of ModuleAnalyzer._parse_list_deps (source lines 108 to
114): java.base plus every bracketed name, deduplicated and sorted. -/
def listDepsList (output : String) : List String :=
  pySorted ((("java.base") :: (pySplit '\n' output).filterMap bracketModule).dedup)

/-- ModuleAnalyzer._parse_list_deps, the serialized ModuleSet string. -/
def parse_list_deps (output : String) : String :=
  pyJoin (",") (listDepsList output)

/-- ModuleAnalyzer._run_jdeps (source lines 88 to 106). The precise call
runs first; its non-zero exit falls back to the listing call, whose own
failure propagates, because an exception raised inside an except block
is not caught by a sibling handler of the same try statement; any other
failure of the precise call is absorbed into the default set. -/
def run_jdeps (env : SysEnv) (targets : List String) :
    Except PkgErr String × List Ev :=
  match env.precise with
  | .ok out => (.ok (pyStrip out), [.jdepsPrecise targets])
  | .processFailure =>
    match env.listing with
    | .ok out =>
      (.ok (parse_list_deps out), [.jdepsPrecise targets, .jdepsListing targets])
    | .processFailure =>
      (.error .jdepsProcessFailure, [.jdepsPrecise targets, .jdepsListing targets])
    | .otherFailure =>
      (.error .jdepsOtherFailure, [.jdepsPrecise targets, .jdepsListing targets])
  | .otherFailure => (.ok DEFAULT_MODULES, [.jdepsPrecise targets])

/-- ModuleAnalyzer._extract_war (source lines 71 to 86): extracts into a
fresh scratch directory, collects the classes directory first and then
the .jar entries of the lib directory, and releases the scratch when the
with block closes, before returning the collected paths. -/
def extract_war (env : SysEnv) : List String × List Ev :=
  let classes :=
    if env.warHasClasses then [env.scratchDir ++ "/WEB-INF/classes"] else []
  let libs := (env.warLibEntries.filter (fun f => extSuffix f = ".jar")).map
    (fun f => env.scratchDir ++ "/WEB-INF/lib/" ++ f)
  (classes ++ libs, [.acq .warScratch, .rel .warScratch])

/-- ModuleAnalyzer._prepare_targets (source lines 67 to 69). -/
def prepare_targets (env : SysEnv) (jar_path : String) :
    List String × List Ev :=
  if pyEndsWith (".war") (pyLower jar_path) then extract_war env
  else ([jar_path], [])

/-- ModuleAnalyzer.analyze (source lines 58 to 65). -/
def analyze (env : SysEnv) (jar_path : String) (use_all : Bool) :
    Except PkgErr String × List Ev :=
  if use_all then
    (.ok (list_all_modules env.listModulesOut), [.listModulesCall])
  else
    let t := prepare_targets env jar_path
    let r := run_jdeps env t.1
    (r.1, t.2 ++ r.2)

/-- Module list of ModuleAnalyzer.merge_modules (source lines 116 to
120): one occurrence per distinct raw name of the split analyzed string
plus the extras, each stripped, blanks discarded, sorted. -/
def mergeList (analyzed : String) (extra : List String) : List String :=
  pySorted ((((pySplit ',' analyzed) ++ extra).dedup.map pyStrip).filter (· ≠ ("")))

/-- ModuleAnalyzer.merge_modules, the serialized ModuleSet string. -/
def merge_modules (analyzed : String) (extra : List String) : String :=
  pyJoin (",") (mergeList analyzed extra)

/-- JavaPackager._has_main_class (source lines 251 to 262): the manifest
entry is extracted into a scratch directory and the check is plain
substring containment of Main-Class in its text, false when no manifest
file was extracted. -/
def has_main_class (manifest : Option String) : Bool :=
  match manifest with
  | none => false
  | some t => pyIn ("Main-Class") t

/-- JavaPackager.validate (source lines 240 to 249), with the scratch
events of the manifest extraction. -/
def validate (found : Bool) (p : String) (manifest : Option String) :
    Except PkgErr Unit × List Ev :=
  if found = false then (.error .inputNotFound, [])
  else if ¬ (pyLower (pySuffix p) = ".jar" ∨ pyLower (pySuffix p) = ".war") then
    (.error .unsupportedInputType, [])
  else if pyLower (pySuffix p) = ".jar" then
    (if has_main_class manifest then .ok () else .error .missingEntryPoint,
      [.acq .mfScratch, .rel .mfScratch])
  else (.ok (), [])

/-- JREBuilder.build (source lines 129 to 143): a non-zero jlink exit
raises. -/
def jre_build (env : SysEnv) : Except PkgErr Unit × List Ev :=
  (if env.jlinkOk then .ok () else .error .jlinkFailure, [.jlinkCall])

/-- PackageBuilder.prepare (source lines 176 to 201): the JRE copy
retries once on stale state; the failure of the retried copy propagates
and a permission failure is re-raised as a fatal error. -/
def pkg_prepare (env : SysEnv) : Except PkgErr Unit × List Ev :=
  (match env.copy with
   | .ok => .ok ()
   | .staleThenOk => .ok ()
   | .staleThenFailure => .error .stagingCopyFailure
   | .permissionFailure => .error .stagingPermission, [.copyCall])

/-- PackageBuilder.build_exe (source lines 203 to 227). -/
def build_exe (env : SysEnv) : Except PkgErr Unit × List Ev :=
  (if env.bundleOk then .ok () else .error .bundleFailure, [.bundleCall])

/-- JavaPackager.package (source lines 264 to 297): the body runs inside
one managed working directory whose release the with block guarantees on
every exit path; the except clause logs and re-raises, so each failing
stage aborts the following ones. -/
def package (env : SysEnv) (p : String) (use_all : Bool)
    (extra : List String) : Except PkgErr Unit × List Ev :=
  let body : Except PkgErr Unit × List Ev :=
    let v := validate env.inputFound p env.manifest
    match v.1 with
    | .error e => (.error e, v.2)
    | .ok _ =>
      let a := analyze env p use_all
      match a.1 with
      | .error e => (.error e, v.2 ++ a.2)
      | .ok analyzed =>
        let _merged := merge_modules analyzed extra
        let j := jre_build env
        match j.1 with
        | .error e => (.error e, v.2 ++ a.2 ++ j.2)
        | .ok _ =>
          let s := pkg_prepare env
          match s.1 with
          | .error e => (.error e, v.2 ++ a.2 ++ j.2 ++ s.2)
          | .ok _ =>
            let b := build_exe env
            (b.1, v.2 ++ a.2 ++ j.2 ++ s.2 ++ b.2)
  (body.1, .acq .workDir :: body.2 ++ [.rel .workDir])

/-- Module names a comma-separated ModuleSet string denotes, blank
pieces discarded. -/
def modulesOf (s : String) : List String := (pySplit ',' s).filter (· ≠ (""))

/-- Modelled from the claim wording, for comparison with the source:
exact key lookup of a manifest attribute, the part of a line before the
first colon equalling the key. -/
def manifestHasKey (key t : String) : Bool :=
  (pySplit '\n' t).any (fun line => (pySplit ':' line).headD ("") = key)

/-- Scratch-lifecycle soundness of an event trace: every acquisition of
a run-scoped directory is followed, later in the trace, by a release of
the same directory. -/
def cleanedUp : List Ev → Prop
  | [] => True
  | e :: rest => (∀ r, e = Ev.acq r → Ev.rel r ∈ rest) ∧ cleanedUp rest

/-! ## Supporting lemmas -/

theorem charListLe_cons {a b : Char} {as bs : List Char} :
    charListLe (a :: as) (b :: bs) = true ↔
      a < b ∨ (a = b ∧ charListLe as bs = true) := by
  simp only [charListLe]
  rcases lt_trichotomy a b with h | h | h
  · simp [h]
  · subst h; simp [lt_irrefl]
  · simp [asymm h, h, ne_of_gt h]

theorem charListLe_total : ∀ x y : List Char,
    charListLe x y = true ∨ charListLe y x = true
  | [], _ => Or.inl rfl
  | _ :: _, [] => Or.inr rfl
  | a :: as, b :: bs => by
    rcases lt_trichotomy a b with h | h | h
    · exact Or.inl (charListLe_cons.mpr (Or.inl h))
    · subst h
      rcases charListLe_total as bs with ih | ih
      · exact Or.inl (charListLe_cons.mpr (Or.inr ⟨rfl, ih⟩))
      · exact Or.inr (charListLe_cons.mpr (Or.inr ⟨rfl, ih⟩))
    · exact Or.inr (charListLe_cons.mpr (Or.inl h))

theorem charListLe_trans : ∀ x y z : List Char,
    charListLe x y = true → charListLe y z = true → charListLe x z = true
  | [], _, _, _, _ => rfl
  | _ :: _, [], _, h, _ => by simp [charListLe] at h
  | _ :: _, _ :: _, [], _, h => by simp [charListLe] at h
  | a :: as, b :: bs, c :: cs, h1, h2 => by
    rcases charListLe_cons.mp h1 with hab | ⟨hab, r1⟩
    · rcases charListLe_cons.mp h2 with hbc | ⟨hbc, _⟩
      · exact charListLe_cons.mpr (Or.inl (lt_trans hab hbc))
      · exact charListLe_cons.mpr (Or.inl (hbc ▸ hab))
    · subst hab
      rcases charListLe_cons.mp h2 with hbc | ⟨hbc, r2⟩
      · exact charListLe_cons.mpr (Or.inl hbc)
      · exact charListLe_cons.mpr (Or.inr ⟨hbc, charListLe_trans as bs cs r1 r2⟩)

theorem charListLe_antisymm : ∀ x y : List Char,
    charListLe x y = true → charListLe y x = true → x = y
  | [], [], _, _ => rfl
  | _ :: _, [], h, _ => by simp [charListLe] at h
  | [], _ :: _, _, h => by simp [charListLe] at h
  | a :: as, b :: bs, h1, h2 => by
    rcases charListLe_cons.mp h1 with hab | ⟨hab, r1⟩
    · rcases charListLe_cons.mp h2 with hba | ⟨hba, _⟩
      · exact absurd hab (asymm hba)
      · exact absurd hab (hba ▸ lt_irrefl b)
    · subst hab
      rcases charListLe_cons.mp h2 with hba | ⟨_, r2⟩
      · exact absurd hba (lt_irrefl a)
      · exact congrArg (a :: ·) (charListLe_antisymm as bs r1 r2)

theorem strLe_isTotal : IsTotal String StrLe :=
  ⟨fun a b => charListLe_total a.data b.data⟩

theorem strLe_isTrans : IsTrans String StrLe :=
  ⟨fun a b c => charListLe_trans a.data b.data c.data⟩

theorem strLe_isAntisymm : IsAntisymm String StrLe :=
  ⟨fun a b h1 h2 => String.ext (charListLe_antisymm a.data b.data h1 h2)⟩

theorem mem_pySorted {a : String} {l : List String} :
    a ∈ pySorted l ↔ a ∈ l :=
  List.mem_insertionSort StrLe

theorem sorted_pySorted (l : List String) : List.Sorted StrLe (pySorted l) :=
  haveI := strLe_isTotal
  haveI := strLe_isTrans
  List.sorted_insertionSort StrLe l

theorem nodup_pySorted {l : List String} (h : l.Nodup) :
    (pySorted l).Nodup :=
  ((List.perm_insertionSort StrLe l).nodup_iff).mpr h

theorem pathParentParent_ne_empty {p : String}
    (h : pyStartsWith ("/") p = true) : pathParentParent p ≠ "" := by
  intro hc
  rw [pathParentParent] at hc
  simp only [h, if_true] at hc
  exact List.cons_ne_nil _ _ (congrArg String.data hc)

/-! ## Claims -/

/-- C1, counterexample: with the precise jdeps mode failing on a
non-zero exit and the listing mode failing as well, the resolution step
raises the listing failure to its caller, while the claim states that
analysis never fails outright and that a listing failure yields the
hard-coded default set. -/
theorem C1_cex_listing_failure_raises :
    (run_jdeps
        ⟨true, none, (""), false, [], (""), .processFailure, .processFailure,
          true, .ok, true⟩ [("app.jar")]).1 = .error .jdepsProcessFailure := by
  decide

/-- C1 (amended): with useAll unset, a precise-mode non-zero exit falls
back to listing-mode parsing, and a precise-mode failure of any other
kind (the inspector entirely unusable) yields the hard-coded default set
without an error; but a failure of the listing-mode call itself
propagates to the caller, because it is raised inside the except handler
of the precise call. -/
theorem C1_fallback_chain (env : SysEnv) (targets : List String) :
    (∀ out, env.precise = .processFailure → env.listing = .ok out →
      (run_jdeps env targets).1 = .ok (parse_list_deps out)) ∧
    (env.precise = .otherFailure →
      (run_jdeps env targets).1 = .ok DEFAULT_MODULES) ∧
    (env.precise = .processFailure → env.listing = .processFailure →
      (run_jdeps env targets).1 = .error .jdepsProcessFailure) ∧
    (env.precise = .processFailure → env.listing = .otherFailure →
      (run_jdeps env targets).1 = .error .jdepsOtherFailure) := by
  obtain ⟨f1, f2, f3, f4, f5, f6, pr, li, f9, f10, f11⟩ := env
  cases pr <;> cases li <;> simp [run_jdeps]

/-- C1, witness of the amended theorem at a run whose inspector binary
is missing: the default set is returned. -/
theorem C1_fallback_chain_witness :
    (run_jdeps
        ⟨true, none, (""), false, [], (""), .otherFailure, .ok (""),
          true, .ok, true⟩ [("app.jar")]).1 = .ok DEFAULT_MODULES :=
  (C1_fallback_chain _ _).2.1 rfl

/-- C2, behaviour of the code at the failing input (a web archive with a
classes directory and two library jars): the analysis targets are the
classes directory first followed by the .jar entries of the lib
directory, as the claim states, but the extraction scratch is released
before the inspector is invoked, so the target paths no longer exist
when jdeps runs; the claim requires the release to come only when
resolution finishes. -/
theorem C2_scratch_released_before_inspection :
    (analyze
        ⟨true, none, ("/tmp/w"), true, [("a.jar"), ("b.txt"), ("c.jar")], (""),
          .ok ("java.base"), .ok (""), true, .ok, true⟩
        ("/x/site.war") false).2 =
      [.acq .warScratch, .rel .warScratch,
        .jdepsPrecise [("/tmp/w/WEB-INF/classes"), ("/tmp/w/WEB-INF/lib/a.jar"),
          ("/tmp/w/WEB-INF/lib/c.jar")]] := by
  decide

/-- C5, counterexample: a plain archive whose manifest lacks the
Main-Class key but mentions the text Main-Class inside another key
passes validation, because the code tests substring containment of the
manifest text rather than exact key lookup. -/
theorem C5_cex_substring_not_key_match :
    (validate true ("/x/app.jar") (some ("X-Main-Class: demo.App"))).1 = .ok ()
      ∧ manifestHasKey ("Main-Class") ("X-Main-Class: demo.App") = false := by
  decide

/-- C5 (amended): for a plain archive, validation extracts only the
manifest entry and raises the missing-entry-point error exactly when no
manifest was extracted or its text lacks the substring Main-Class (a
containment scan, not an exact key lookup); a web archive is never
checked and passes this stage unconditionally. -/
theorem C5_entry_point_check (p : String) (mf : Option String) :
    (pyLower (pySuffix p) = ".war" → (validate true p mf).1 = .ok ()) ∧
    (pyLower (pySuffix p) = ".jar" →
      ((validate true p mf).1 = .error .missingEntryPoint ↔
        has_main_class mf = false)) := by
  have hne : (".war" : String) ≠ ".jar" := by decide
  constructor
  · intro h
    simp [validate, h, hne]
  · intro h
    cases hm : has_main_class mf <;> simp [validate, h, hm]

/-- C5, witness of the amended theorem: a web archive with no manifest
passes, and a plain archive with no manifest raises. -/
theorem C5_entry_point_check_witness :
    (validate true ("/x/site.war") none).1 = .ok () ∧
      (validate true ("/x/app.jar") none).1 = .error .missingEntryPoint :=
  ⟨(C5_entry_point_check ("/x/site.war") none).1 (by decide),
    ((C5_entry_point_check ("/x/app.jar") none).2 (by decide)).mpr rfl⟩

/-- C8, counterexample: a caller-supplied custom path short-circuits
construction, so a toolchain whose version probe would report a legacy
pre-modularization version string is accepted without any version
introspection, while the claim states the version check applies to every
located toolchain including one designated by customPath. -/
theorem C8_cex_custom_path_skips_version_check :
    jdk_init (some ("/opt/jdk8"))
        ⟨some ("java version \"1.8.0_292\""), some ("/opt/jdk8/bin/java")⟩
      = .ok ("/opt/jdk8") := by
  decide

/-- C8 (amended): locating the toolchain fails with the not-found error
exactly when no truthy customPath was supplied and auto-detection fails,
that is, the version probe raises, or reports a legacy single-digit
major version string, or no java binary is found on the path; a truthy
customPath is accepted verbatim with no existence or version check. The
hypothesis records that shutil.which resolves to an absolute path. -/
theorem C8_locate_failure (customPath : Option String) (env : DetectEnv)
    (habs : ∀ q, env.whichJava = some q → pyStartsWith ("/") q = true) :
    jdk_init customPath env = .error .notFound ↔
      ((customPath = none ∨ customPath = some ("")) ∧
        (env.probe = none ∨
          (∃ out, env.probe = some out ∧ pyIn ("version \"1.") out = true) ∨
          env.whichJava = none ∨ env.whichJava = some (""))) := by
  have hdet : detect_jdk env = "" ↔
      (env.probe = none ∨
        (∃ out, env.probe = some out ∧ pyIn ("version \"1.") out = true) ∨
        env.whichJava = none ∨ env.whichJava = some ("")) := by
    obtain ⟨probe, which⟩ := env
    cases probe with
    | none => simp [detect_jdk]
    | some out =>
      cases hold : pyIn ("version \"1.") out with
      | true => simp [detect_jdk, hold]
      | false =>
        cases which with
        | none => simp [detect_jdk, hold]
        | some q =>
          by_cases hq : q = ("")
          · subst hq; simp [detect_jdk, hold]
          · have habs2 := habs q rfl
            have hppp := pathParentParent_ne_empty habs2
            simp [detect_jdk, hold, hq, hppp]
  match customPath with
  | none => simpa [jdk_init] using hdet
  | some s =>
    by_cases hs : s = ("")
    · subst hs; simpa [jdk_init] using hdet
    · simp [jdk_init, hs]

/-- C8, witness of the amended theorem: with no custom path and no java
binary on the path, construction fails with the not-found error. -/
theorem C8_locate_failure_witness :
    jdk_init none ⟨some ("openjdk version \"21\""), none⟩ = .error .notFound :=
  (C8_locate_failure none ⟨some ("openjdk version \"21\""), none⟩
      (fun _ h => nomatch h)).mpr
    ⟨Or.inl rfl, Or.inr (Or.inr (Or.inl rfl))⟩

/-- C10: archive-kind detection is case-insensitive. With the input
present, validation passes the kind check exactly when the pathlib
extension of the path lowercases to .jar or .war, and target preparation
takes the web-archive branch exactly when the lowercased path ends with
.war. -/
theorem C10_extension_case_insensitive (p : String) (mf : Option String)
    (env : SysEnv) :
    ((validate true p mf).1 ≠ .error .unsupportedInputType ↔
      (pyLower (pySuffix p) = ".jar" ∨ pyLower (pySuffix p) = ".war")) ∧
    (pyEndsWith (".war") (pyLower p) = true →
      prepare_targets env p = extract_war env) ∧
    (pyEndsWith (".war") (pyLower p) = false →
      prepare_targets env p = ([p], [])) := by
  refine ⟨?_, ?_, ?_⟩
  · by_cases h : pyLower (pySuffix p) = ".jar" ∨ pyLower (pySuffix p) = ".war"
    · refine iff_of_true ?_ h
      rcases h with h | h
      · cases hm : has_main_class mf <;> simp [validate, h, hm]
      · have hne : (".war" : String) ≠ ".jar" := by decide
        simp [validate, h, hne]
    · refine iff_of_false ?_ h
      simp [validate, h]
  · intro h; simp [prepare_targets, h]
  · intro h; simp [prepare_targets, h]

/-- C10, witness: an upper-case .JAR extension passes the kind check and
a mixed-case .War path takes the web-archive branch. -/
theorem C10_extension_case_insensitive_witness :
    ((validate true ("/x/APP.JAR") (some ("Main-Class: a"))).1 ≠
        .error .unsupportedInputType) ∧
      prepare_targets
          ⟨true, none, ("/tmp/w"), false, [], (""), .ok (""), .ok (""),
            true, .ok, true⟩ ("/x/A.War") =
        extract_war
          ⟨true, none, ("/tmp/w"), false, [], (""), .ok (""), .ok (""),
            true, .ok, true⟩ :=
  ⟨(C10_extension_case_insensitive ("/x/APP.JAR") (some ("Main-Class: a"))
      ⟨true, none, ("/tmp/w"), false, [], (""), .ok (""), .ok (""),
        true, .ok, true⟩).1.mpr (Or.inl (by decide)),
    (C10_extension_case_insensitive ("/x/A.War") none _).2.1 (by decide)⟩

theorem base_mem_listDepsList (out : String) :
    ("java.base") ∈ listDepsList out :=
  mem_pySorted.mpr (List.mem_dedup.mpr (List.mem_cons_self _ _))

/-- C3, counterexample: a precise-mode success whose captured output is
empty is returned verbatim, so resolution yields the empty ModuleSet,
without java.base; the code never post-checks the precise-mode
output. -/
theorem C3_cex_empty_precise_output :
    (run_jdeps
        ⟨true, none, (""), false, [], (""), .ok (""), .ok (""),
          true, .ok, true⟩ [("app.jar")]).1 = .ok ("") ∧
      modulesOf ("") = [] := by
  decide

/-- C3 (amended): the listing-mode result and the default fallback are
always non-empty and contain java.base; the precise-mode result is the
trimmed inspector output passed through verbatim, so it is non-empty and
contains java.base exactly when that output does. -/
theorem C3_base_module (env : SysEnv) (targets : List String) :
    (∀ out, env.precise = .processFailure → env.listing = .ok out →
      (run_jdeps env targets).1 = .ok (parse_list_deps out) ∧
        ("java.base") ∈ listDepsList out ∧ listDepsList out ≠ []) ∧
    (env.precise = .otherFailure →
      (run_jdeps env targets).1 = .ok DEFAULT_MODULES ∧
        ("java.base") ∈ modulesOf DEFAULT_MODULES ∧
        modulesOf DEFAULT_MODULES ≠ []) ∧
    (∀ raw, env.precise = .ok raw →
      (run_jdeps env targets).1 = .ok (pyStrip raw)) := by
  obtain ⟨f1, f2, f3, f4, f5, f6, pr, li, f9, f10, f11⟩ := env
  refine ⟨?_, ?_, ?_⟩
  · intro out hpr hli
    cases pr <;> cases li <;> simp_all [run_jdeps]
    exact ⟨base_mem_listDepsList out, List.ne_nil_of_mem (base_mem_listDepsList out)⟩
  · intro hpr
    cases pr <;> simp_all [run_jdeps]
    decide
  · intro raw hpr
    cases pr <;> simp_all [run_jdeps]

/-- C3, witness of the amended theorem: listing-mode fallback on an
output with no bracketed names still yields the base module. -/
theorem C3_base_module_witness :
    (run_jdeps
        ⟨true, none, (""), false, [], (""), .processFailure, .ok (""),
          true, .ok, true⟩ [("app.jar")]).1 = .ok (parse_list_deps ("")) ∧
      ("java.base") ∈ listDepsList ("") ∧ listDepsList ("") ≠ [] :=
  (C3_base_module
      ⟨true, none, (""), false, [], (""), .processFailure, .ok (""),
        true, .ok, true⟩ [("app.jar")]).1 ("") rfl rfl

/-- C4, counterexample: the hard-coded default ModuleSet string is not
serialized in sorted order, and merge emits a duplicate when two raw
names strip to the same module, so resolver-produced ModuleSet strings
are not all deduplicated and canonically sorted. -/
theorem C4_cex_not_canonical :
    pySplit ',' DEFAULT_MODULES =
        [("java.instrument"), ("java.base"), ("java.logging")] ∧
      ¬ List.Sorted StrLe (pySplit ',' DEFAULT_MODULES) ∧
      merge_modules ("x") [("x ")] = "x,x" := by
  decide

/-- C4 (amended): the listing-mode result and the all-modules listing
are serialized sorted and deduplicated, and the merge output is sorted
but deduplicated only up to the distinct raw pre-strip names; the
precise-mode result is the inspector output, trimmed, passed through
verbatim, and the hard-coded default set is a fixed string in its
original unsorted order. -/
theorem C4_canonical_serialization (o a raw : String) (e : List String)
    (env : SysEnv) (targets : List String)
    (h : env.precise = .ok raw) :
    (run_jdeps env targets).1 = .ok (pyStrip raw) ∧
    List.Sorted StrLe (listDepsList o) ∧ (listDepsList o).Nodup ∧
    parse_list_deps o = pyJoin (",") (listDepsList o) ∧
    List.Sorted StrLe (mergeList a e) ∧
    merge_modules a e = pyJoin (",") (mergeList a e) ∧
    List.Sorted StrLe (listAllModulesList o) ∧
    (listAllModulesList o).Nodup := by
  obtain ⟨f1, f2, f3, f4, f5, f6, pr, li, f9, f10, f11⟩ := env
  refine ⟨?_, sorted_pySorted _, nodup_pySorted (List.nodup_dedup _), rfl,
    sorted_pySorted _, rfl, sorted_pySorted _, nodup_pySorted (List.nodup_dedup _)⟩
  cases pr <;> simp_all [run_jdeps]

/-- C4, witness of the amended theorem at a precise-mode success. -/
theorem C4_canonical_serialization_witness :
    (run_jdeps
        ⟨true, none, (""), false, [], (""), .ok ("java.base\n"), .ok (""),
          true, .ok, true⟩ [("app.jar")]).1 = .ok (pyStrip ("java.base\n")) ∧
    List.Sorted StrLe (listDepsList ("")) ∧ (listDepsList ("")).Nodup ∧
    parse_list_deps ("") = pyJoin (",") (listDepsList ("")) ∧
    List.Sorted StrLe (mergeList ("b,a") [("c")]) ∧
    merge_modules ("b,a") [("c")] = pyJoin (",") (mergeList ("b,a") [("c")]) ∧
    List.Sorted StrLe (listAllModulesList ("")) ∧
    (listAllModulesList ("")).Nodup :=
  C4_canonical_serialization ("") ("b,a") ("java.base\n") [("c")]
    ⟨true, none, (""), false, [], (""), .ok ("java.base\n"), .ok (""),
      true, .ok, true⟩ [("app.jar")] rfl

/-- C6: with useAll set, resolution returns exactly the deduplicated
all-modules listing with any location suffix after the @ delimiter
stripped, for every archive path, and the dependency inspector receives
zero calls. -/
theorem C6_use_all (env : SysEnv) (p : String) :
    analyze env p true =
      (.ok (list_all_modules env.listModulesOut), [.listModulesCall]) ∧
    (∀ t, Ev.jdepsPrecise t ∉ (analyze env p true).2 ∧
      Ev.jdepsListing t ∉ (analyze env p true).2) ∧
    (∀ m, m ∈ listAllModulesList env.listModulesOut ↔
      ∃ line, line ∈ pySplit '\n' env.listModulesOut ∧ pyStrip line ≠ ("") ∧
        m = (pySplit '@' line).headD ("")) ∧
    (listAllModulesList env.listModulesOut).Nodup := by
  refine ⟨rfl, ?_, ?_, nodup_pySorted (List.nodup_dedup _)⟩
  · intro t
    constructor <;> simp [analyze]
  · intro m
    simp only [listAllModulesList, mem_pySorted, List.mem_dedup, List.mem_map,
      List.mem_filter, decide_eq_true_eq]
    constructor
    · rintro ⟨line, ⟨hmem, hne⟩, hval⟩
      exact ⟨line, hmem, hne, hval.symm⟩
    · rintro ⟨line, hmem, hne, hval⟩
      exact ⟨line, ⟨hmem, hne⟩, hval.symm⟩

/-- C6, witness: with useAll set on a concrete listing, the duplicated
entry appears once and the location suffixes are stripped. -/
theorem C6_use_all_witness :
    analyze
        ⟨true, none, (""), false, [], ("java.sql@21\njava.base@21\njava.base@21"),
          .ok (""), .ok (""), true, .ok, true⟩ ("/x/site.war") true =
      (.ok (list_all_modules ("java.sql@21\njava.base@21\njava.base@21")),
        [.listModulesCall]) :=
  (C6_use_all
      ⟨true, none, (""), false, [], ("java.sql@21\njava.base@21\njava.base@21"),
        .ok (""), .ok (""), true, .ok, true⟩ ("/x/site.war")).1

theorem mem_splitChar_not_sep {sep : Char} :
    ∀ l x, x ∈ splitChar sep l → sep ∉ x := by
  intro l
  induction l with
  | nil =>
    intro x hx
    simp only [splitChar, List.mem_singleton] at hx
    subst hx; simp
  | cons c cs ih =>
    intro x hx
    rw [splitChar] at hx
    by_cases hc : c = sep
    · rw [if_pos hc] at hx
      rcases List.mem_cons.mp hx with h | h
      · subst h; simp
      · exact ih x h
    · rw [if_neg hc] at hx
      rcases hrec : splitChar sep cs with _ | ⟨p, ps⟩ <;> rw [hrec] at hx
      · rcases List.mem_cons.mp hx with h | h
        · subst h
          intro hmem
          exact hc (List.mem_singleton.mp hmem).symm
        · exact absurd h (List.not_mem_nil x)
      · rcases List.mem_cons.mp hx with h | h
        · subst h
          intro hmem
          rcases List.mem_cons.mp hmem with h2 | h2
          · exact hc h2.symm
          · refine ih p ?_ h2
            rw [hrec]; exact List.mem_cons_self p ps
        · refine ih x ?_
          rw [hrec]; exact List.mem_cons_of_mem p h

theorem splitChar_eq_singleton {sep : Char} :
    ∀ {x : List Char}, sep ∉ x → splitChar sep x = [x]
  | [], _ => rfl
  | c :: cs, h => by
    have hc : ¬ c = sep := fun he => h (he ▸ List.mem_cons_self c cs)
    rw [splitChar, if_neg hc,
      splitChar_eq_singleton (fun hm => h (List.mem_cons_of_mem c hm))]

theorem splitChar_append_sep {sep : Char} :
    ∀ {x : List Char} (rest : List Char), sep ∉ x →
      splitChar sep (x ++ sep :: rest) = x :: splitChar sep rest
  | [], rest, _ => by rw [List.nil_append, splitChar, if_pos rfl]
  | c :: cs, rest, h => by
    have hc : ¬ c = sep := fun he => h (he ▸ List.mem_cons_self c cs)
    rw [List.cons_append, splitChar, if_neg hc,
      splitChar_append_sep rest (fun hm => h (List.mem_cons_of_mem c hm))]

theorem splitChar_joinChar {sep : Char} :
    ∀ {M : List (List Char)}, M ≠ [] → (∀ x ∈ M, sep ∉ x) →
      splitChar sep (joinChar [sep] M) = M
  | [], h, _ => absurd rfl h
  | [x], _, hc => by
    rw [joinChar, splitChar_eq_singleton (hc x (List.mem_singleton.mpr rfl))]
  | x :: y :: ys, _, hc => by
    rw [joinChar]
    have hassoc : x ++ [sep] ++ joinChar [sep] (y :: ys) =
        x ++ sep :: joinChar [sep] (y :: ys) := by
      rw [List.append_assoc]; rfl
    rw [hassoc, splitChar_append_sep _ (hc x (List.mem_cons_self _ _)),
      splitChar_joinChar (List.cons_ne_nil y ys)
        (fun z hz => hc z (List.mem_cons_of_mem x hz))]

theorem mem_pySplit_not_sep {sep : Char} {s x : String}
    (h : x ∈ pySplit sep s) : sep ∉ x.data := by
  rcases List.mem_map.mp h with ⟨y, hy, rfl⟩
  exact mem_splitChar_not_sep s.data y hy

theorem pySplit_pyJoin {M : List String} (hM : M ≠ [])
    (hc : ∀ x ∈ M, ',' ∉ x.data) :
    pySplit ',' (pyJoin (",") M) = M := by
  have hM2 : M.map String.data ≠ [] := fun h => hM (List.map_eq_nil_iff.mp h)
  have hc2 : ∀ y ∈ M.map String.data, ',' ∉ y := by
    intro y hy
    rcases List.mem_map.mp hy with ⟨x, hx, rfl⟩
    exact hc x hx
  show (splitChar ',' (pyJoin (",") M).data).map String.mk = M
  have hdat : (pyJoin (",") M).data = joinChar [','] (M.map String.data) := rfl
  rw [hdat, splitChar_joinChar hM2 hc2, List.map_map]
  have hfinal : List.map (String.mk ∘ String.data) M = List.map id M :=
    List.map_congr_left (fun x _ => rfl)
  rw [hfinal, List.map_id]

theorem pySorted_eq_of_perm {l1 l2 : List String} (h : l1.Perm l2) :
    pySorted l1 = pySorted l2 :=
  haveI := strLe_isAntisymm
  List.eq_of_perm_of_sorted
    ((List.perm_insertionSort StrLe l1).trans
      (h.trans (List.perm_insertionSort StrLe l2).symm))
    (sorted_pySorted l1) (sorted_pySorted l2)

theorem pySorted_eq_self {l : List String} (h : List.Sorted StrLe l) :
    pySorted l = l :=
  List.Sorted.insertionSort_eq h

theorem mem_mergeList {a m : String} {e : List String} :
    m ∈ mergeList a e ↔
      m ≠ ("") ∧ ∃ x, x ∈ pySplit ',' a ++ e ∧ pyStrip x = m := by
  simp only [mergeList, mem_pySorted, List.mem_filter, List.mem_map,
    List.mem_dedup, decide_eq_true_eq]
  tauto

theorem merge_modules_perm_extra (a : String) {e1 e2 : List String}
    (h : e1.Perm e2) : merge_modules a e1 = merge_modules a e2 := by
  have hlist : mergeList a e1 = mergeList a e2 :=
    pySorted_eq_of_perm ((((h.append_left _).dedup).map pyStrip).filter _)
  rw [merge_modules, merge_modules, hlist]

theorem merge_modules_idem (a : String) (e : List String)
    (ha : ∀ x ∈ pySplit ',' a, pyStrip x = x)
    (he : ∀ x ∈ e, pyStrip x = x)
    (hcom : ∀ x ∈ e, ',' ∉ x.data) :
    merge_modules (merge_modules a e) e = merge_modules a e := by
  have hstripL : ∀ x ∈ (pySplit ',' a ++ e).dedup, pyStrip x = x := by
    intro x hx
    rcases List.mem_append.mp (List.mem_dedup.mp hx) with h | h
    · exact ha x h
    · exact he x h
  have hTdef : mergeList a e =
      pySorted ((pySplit ',' a ++ e).dedup.filter (· ≠ (""))) := by
    simp only [mergeList]
    rw [List.map_congr_left (g := id) hstripL, List.map_id]
  have hMmem : ∀ x, x ∈ mergeList a e ↔
      (x ∈ (pySplit ',' a ++ e).dedup ∧ x ≠ ("")) := by
    intro x
    rw [hTdef]
    simp [mem_pySorted, List.mem_filter]
  have hMne : ∀ x ∈ mergeList a e, x ≠ ("") := fun x hx => ((hMmem x).mp hx).2
  have hMstrip : ∀ x ∈ mergeList a e, pyStrip x = x :=
    fun x hx => hstripL x ((hMmem x).mp hx).1
  have hMcom : ∀ x ∈ mergeList a e, ',' ∉ x.data := by
    intro x hx
    rcases List.mem_append.mp (List.mem_dedup.mp ((hMmem x).mp hx).1) with h | h
    · exact mem_pySplit_not_sep h
    · exact hcom x h
  have hMnodup : (mergeList a e).Nodup := by
    rw [hTdef]
    exact nodup_pySorted ((List.nodup_dedup _).filter _)
  have hMsorted : List.Sorted StrLe (mergeList a e) := by
    rw [hTdef]; exact sorted_pySorted _
  have heM : ∀ x ∈ e, x ≠ ("") → x ∈ mergeList a e := by
    intro x hx hne
    exact (hMmem x).mpr
      ⟨List.mem_dedup.mpr (List.mem_append_right _ hx), hne⟩
  by_cases hM0 : mergeList a e = []
  · have hall : ∀ x ∈ e, x = ("") := by
      intro x hx
      by_contra hne
      exact absurd (hM0 ▸ heM x hx hne) (List.not_mem_nil x)
    have hjoin : merge_modules a e = "" := by
      rw [merge_modules, hM0]; rfl
    rw [hjoin]
    have hL2 : ∀ y ∈ (pySplit ',' ("") ++ e).dedup, pyStrip y = "" := by
      intro y hy
      rcases List.mem_append.mp (List.mem_dedup.mp hy) with h | h
      · have : y = ("") := by
          simpa [pySplit, splitChar] using h
        rw [this]; rfl
      · rw [he y h, hall y h]
    have hnil : mergeList ("") e = [] := by
      simp only [mergeList]
      have : (((pySplit ',' ("") ++ e).dedup.map pyStrip).filter (· ≠ (""))) = [] := by
        rw [List.filter_eq_nil_iff]
        intro y hy
        rcases List.mem_map.mp hy with ⟨z, hz, rfl⟩
        simp [hL2 z hz]
      rw [this]
      rfl
    rw [merge_modules, hnil]
    rfl
  · have hsplitM : pySplit ',' (merge_modules a e) = mergeList a e :=
      pySplit_pyJoin hM0 hMcom
    have hsuff : mergeList (merge_modules a e) e = mergeList a e := by
      simp only [mergeList]
      rw [hsplitM]
      have hstrip2 : ∀ x ∈ (mergeList a e ++ e).dedup, pyStrip x = x := by
        intro x hx
        rcases List.mem_append.mp (List.mem_dedup.mp hx) with h | h
        · exact hMstrip x h
        · exact he x h
      rw [List.map_congr_left (g := id) hstrip2, List.map_id]
      have hperm : List.Perm
          ((mergeList a e ++ e).dedup.filter (· ≠ (""))) (mergeList a e) := by
        apply (List.perm_ext_iff_of_nodup ((List.nodup_dedup _).filter _) hMnodup).mpr
        intro x
        simp only [List.mem_filter, List.mem_dedup, List.mem_append,
          decide_eq_true_eq]
        constructor
        · rintro ⟨h1 | h1, h2⟩
          · exact h1
          · exact heM x h1 h2
        · intro hx
          exact ⟨Or.inl hx, hMne x hx⟩
      exact (pySorted_eq_of_perm hperm).trans (pySorted_eq_self hMsorted)
    show pyJoin (",") (mergeList (merge_modules a e) e) = merge_modules a e
    rw [hsuff]
    rfl

/-- C7, counterexample: an extra entry carrying trailing whitespace
breaks idempotence, because deduplication happens before stripping; the
first merge of the whitespace variant yields one name, and re-merging
the same extras duplicates it. -/
theorem C7_cex_not_idempotent :
    merge_modules (merge_modules ("") [("x ")]) [("x ")] ≠
        merge_modules ("") [("x ")] ∧
      merge_modules (merge_modules ("") [("x ")]) [("x ")] = "x,x" := by
  decide

/-- C7 (amended): merge is commutative on its extra argument, and its
output is the sorted list of the stripped names over the distinct raw
entries of the split resolved string and the extras, blanks discarded
(so deduplication is up to raw identity, before stripping); re-merging
the same extras is the identity provided the resolved entries and the
extras are already stripped and the extras contain no comma. -/
theorem C7_merge_algebra :
    (∀ (a : String) (e1 e2 : List String), e1.Perm e2 →
      merge_modules a e1 = merge_modules a e2) ∧
    (∀ (a m : String) (e : List String),
      m ∈ mergeList a e ↔
        m ≠ ("") ∧ ∃ x, x ∈ pySplit ',' a ++ e ∧ pyStrip x = m) ∧
    (∀ (a : String) (e : List String),
      (∀ x ∈ pySplit ',' a, pyStrip x = x) → (∀ x ∈ e, pyStrip x = x) →
      (∀ x ∈ e, ',' ∉ x.data) →
      merge_modules (merge_modules a e) e = merge_modules a e) :=
  ⟨fun a _ _ h => merge_modules_perm_extra a h,
    fun _ _ _ => mem_mergeList,
    fun a e ha he hcom => merge_modules_idem a e ha he hcom⟩

/-- C7, witness of the amended theorem: reordered extras give the same
result, and re-merging stripped comma-free extras is the identity. -/
theorem C7_merge_algebra_witness :
    merge_modules ("java.base") [("a"), ("b")] =
        merge_modules ("java.base") [("b"), ("a")] ∧
      merge_modules (merge_modules ("java.base") [("a")]) [("a")] =
        merge_modules ("java.base") [("a")] :=
  ⟨C7_merge_algebra.1 ("java.base") [("a"), ("b")] [("b"), ("a")]
      (List.Perm.swap _ _ _),
    C7_merge_algebra.2.2 ("java.base") [("a")] (by decide) (by decide)
      (by decide)⟩

theorem cleanedUp_append {xs ys : List Ev} (hx : cleanedUp xs)
    (hy : cleanedUp ys) : cleanedUp (xs ++ ys) := by
  induction xs with
  | nil => simpa using hy
  | cons e rest ih =>
    obtain ⟨h1, h2⟩ := hx
    exact ⟨fun r hr => List.mem_append_left _ (h1 r hr), ih h2⟩

theorem cleanedUp_bracket (r : Res) : cleanedUp [Ev.acq r, Ev.rel r] := by
  simp [cleanedUp]

theorem cleanedUp_wrap {t : List Ev} (h : cleanedUp t) :
    cleanedUp (Ev.acq .workDir :: t ++ [Ev.rel .workDir]) := by
  refine ⟨fun r hr => ?_, cleanedUp_append h (by simp [cleanedUp])⟩
  injection hr with h2
  subst h2
  exact List.mem_append_right _ (List.mem_singleton.mpr rfl)

theorem cleanedUp_validate (found : Bool) (p : String) (mf : Option String) :
    cleanedUp (validate found p mf).2 := by
  simp only [validate]
  split
  · trivial
  · split
    · trivial
    · split
      · exact cleanedUp_bracket .mfScratch
      · trivial

theorem cleanedUp_run_jdeps (env : SysEnv) (targets : List String) :
    cleanedUp (run_jdeps env targets).2 := by
  obtain ⟨f1, f2, f3, f4, f5, f6, pr, li, f9, f10, f11⟩ := env
  cases pr <;> cases li <;> simp [run_jdeps, cleanedUp]

theorem cleanedUp_prepare_targets (env : SysEnv) (p : String) :
    cleanedUp (prepare_targets env p).2 := by
  simp only [prepare_targets]
  split
  · exact cleanedUp_bracket .warScratch
  · trivial

theorem cleanedUp_analyze (env : SysEnv) (p : String) (ua : Bool) :
    cleanedUp (analyze env p ua).2 := by
  cases ua with
  | true => simp [analyze, cleanedUp]
  | false =>
    simp only [analyze, Bool.false_eq_true, if_false]
    exact cleanedUp_append (cleanedUp_prepare_targets env p)
      (cleanedUp_run_jdeps env _)

/-- C9: on every exit path of a packaging run — validation failure,
analysis failure, image-build failure, staging failure, bundling
failure, or success — every run-scoped scratch directory acquired during
the run (WAR-extraction scratch, manifest-extraction scratch, and the
run working directory) is released by the time the run ends. -/
theorem C9_cleanup (env : SysEnv) (p : String) (use_all : Bool)
    (extra : List String) :
    cleanedUp (package env p use_all extra).2 := by
  have hv := cleanedUp_validate env.inputFound p env.manifest
  have ha := cleanedUp_analyze env p use_all
  have hj : cleanedUp [Ev.jlinkCall] := by simp [cleanedUp]
  have hs : cleanedUp [Ev.copyCall] := by simp [cleanedUp]
  have hb : cleanedUp [Ev.bundleCall] := by simp [cleanedUp]
  simp only [package, jre_build, pkg_prepare, build_exe]
  apply cleanedUp_wrap
  split
  · exact hv
  · split
    · exact cleanedUp_append hv ha
    · split
      · exact cleanedUp_append (cleanedUp_append hv ha) hj
      · split
        · exact cleanedUp_append (cleanedUp_append (cleanedUp_append hv ha) hj) hs
        · exact cleanedUp_append
            (cleanedUp_append (cleanedUp_append (cleanedUp_append hv ha) hj) hs) hb

/-- C9, witness at a concrete failing web-archive run: the full trace
acquires and releases the working directory and the extraction scratch
in a balanced way even though resolution fails. -/
theorem C9_cleanup_witness :
    cleanedUp (package
        ⟨true, none, ("/tmp/w"), true, [("a.jar")], (""), .processFailure,
          .processFailure, true, .ok, true⟩ ("/x/site.war") false []).2 :=
  C9_cleanup
    ⟨true, none, ("/tmp/w"), true, [("a.jar")], (""), .processFailure,
      .processFailure, true, .ok, true⟩ ("/x/site.war") false []

end Jar2Native
